import Mathlib

/-
Shallow embedding of the `web3-sign` repository (sign.py, verify.py,
timespan.py, utils.py, decrypt.py and the `web3_signer` package) in Lean 4.

Python strings are modelled as lists of characters (`Str`), which matches
Python's view of a string as a sequence of characters and lets all string
operations be executable structural recursions.  Machine integers do not
occur (Python ints are unbounded), so `Nat`/`Int` are used directly.
`datetime` values are modelled as integer timestamps in milliseconds; their
ISO-8601 serialisation (`datetime.isoformat`) is treated as an external
serialiser and passed around as an explicit function parameter `iso`,
the same way the external signing capability is passed as `signer`.
Fallible Python code (raised exceptions) is modelled with `Except`.
-/

set_option autoImplicit false

deriving instance DecidableEq for Except

namespace Web3Sign

/-- A Python string: a sequence of characters. -/
abbrev Str : Type := List Char

/-! ### Basic string operations (Python `str` methods) -/

/-- Python `str.split(c)` for a single-character separator:
`''.split(c) == ['']`, and every separator starts a new chunk. -/
def splitOnChar (c : Char) : Str → List Str
  | [] => [[]]
  | x :: xs =>
    match splitOnChar c xs with
    | [] => [[x]]
    | g :: gs => if x = c then [] :: g :: gs else (x :: g) :: gs

/-- Python `str.split(c, 1)`: split on the first occurrence of `c`,
returning `none` when `c` does not occur. -/
def splitFirst (c : Char) : Str → Option (Str × Str)
  | [] => none
  | x :: xs =>
    if x = c then some ([], xs)
    else (splitFirst c xs).map (fun p => (x :: p.1, p.2))

/-- The whitespace characters stripped by Python `str.strip()` (ASCII part). -/
def isPySpace (c : Char) : Bool :=
  c = ' ' ∨ c = '\t' ∨ c = '\n' ∨ c = '\r' ∨ c = '\x0b' ∨ c = '\x0c'

/-- Python `str.strip()`. -/
def pyStrip (s : Str) : Str :=
  ((s.dropWhile isPySpace).reverse.dropWhile isPySpace).reverse

/-- Fuel-driven worker for `replaceList`; the fuel is structurally
decreasing so that the kernel can evaluate it.  With fuel at least the
length of the input the fuel never runs out, since every step consumes at
least one character. -/
def replaceFuel (pat rep : Str) : Nat → Str → Str
  | 0, s => s
  | fuel + 1, s =>
    match s with
    | [] => []
    | c :: cs =>
      if pat ≠ [] ∧ pat.isPrefixOf (c :: cs) then
        rep ++ replaceFuel pat rep fuel (List.drop pat.length (c :: cs))
      else
        c :: replaceFuel pat rep fuel cs

/-- Python `str.replace(pat, rep)`: replace every (non-overlapping,
left-to-right) occurrence of `pat` by `rep`. -/
def replaceList (pat rep s : Str) : Str := replaceFuel pat rep s.length s

/-- Python `str.lower()` (ASCII part). -/
def pyLower (s : Str) : Str := s.map Char.toLower

/-- Python `int(...)` on a string of decimal digits. -/
def strToNat (s : Str) : Nat := s.foldl (fun a c => a * 10 + (c.toNat - 48)) 0

/-- Python `str(...)` of an integer. -/
def intToStr (n : Int) : Str :=
  if n < 0 then '-' :: Nat.toDigits 10 n.natAbs else Nat.toDigits 10 n.toNat

/-! ### timespan.py -/

/-- The millisecond multipliers of `timespan.ms` (`multipliers` dict). -/
def msMultiplier (u : Str) : Nat :=
  if u = ['d'] then 86400000
  else if u = ['h'] then 3600000
  else if u = ['m'] then 60000
  else if u = ['s'] then 1000
  else if u = ['m', 's'] then 1
  else 0

/-- `timespan.ms`: convert a string time span to milliseconds.
The source matches `^(\d+)([dhms]{1,2})$` on the lowercased input and
returns `number * multipliers.get(unit, 0)`, or `None` when the pattern
does not match.  Since the unit characters `d,h,m,s` are not digits, the
greedy digit prefix of the regex is exactly `takeWhile isDigit`. -/
def ms (val : Str) : Option Nat :=
  let s := pyLower val
  let number := s.takeWhile Char.isDigit
  let unit := s.dropWhile Char.isDigit
  if number = [] then none
  else if ¬ (unit.length = 1 ∨ unit.length = 2) then none
  else if ¬ unit.all (fun c => c = 'd' ∨ c = 'h' ∨ c = 'm' ∨ c = 's') then none
  else some (strToNat number * msMultiplier unit)

/-- A Python value, as far as the signing pipeline inspects values with
`isinstance`.  Floats are modelled by their integral value (no claim
exercises a fractional float); `pbool` is kept separate because Python's
`bool` is a subclass of `int` and passes `isinstance(x, (int, float))`. -/
inductive PVal where
  | pstr (s : Str)
  | pint (n : Int)
  | pfloat (trunc : Int)
  | pbool (b : Bool)
  | pdt (t : Int)
  | pnone
deriving DecidableEq

/-- Python truthiness of a `PVal`. -/
def pyTruthy (v : PVal) : Bool :=
  match v with
  | .pstr s => s ≠ []
  | .pint n => n ≠ 0
  | .pfloat t => t ≠ 0
  | .pbool b => b
  | .pdt _ => true
  | .pnone => false

/-- `timespan.timespan`: convert a timespan to a future instant
(`datetime.now() + timedelta(milliseconds=...)`), with the current time
passed explicitly.  Raises (`Except.error`) on an unparseable string or a
value that is neither a string nor a number; `bool` passes the
`isinstance(val, (int, float))` check because it subclasses `int`. -/
def timespan (now : Int) (val : PVal) : Except Unit Int :=
  match val with
  | .pstr s =>
    match ms s with
    | none => .error ()
    | some m => .ok (now + (m : Int))
  | .pint n => .ok (now + n)
  | .pfloat t => .ok (now + t)
  | .pbool b => .ok (now + (if b then 1 else 0))
  | _ => .error ()

/-! ### utils.py -/

/-- ASCII letter or digit, the `[a-z0-9]` class under `re.IGNORECASE`. -/
def isAlnum (c : Char) : Bool := c.isAlpha || c.isDigit

/-- Split a candidate domain into its first run of non-separator characters
and the following (separator, run) groups, where a separator is `-` or `.`
(the `[-.]` class of the domain regex). -/
def domainRuns : Str → Str × List (Char × Str)
  | [] => ([], [])
  | c :: cs =>
    let r := domainRuns cs
    if c = '-' ∨ c = '.' then ([], (c, r.1) :: r.2) else (c :: r.1, r.2)

/-- `utils.is_valid_domain`:
`re.match(r'^[a-z0-9]+([-.]{1}[a-z0-9]+)*\.[a-z]{2,}$', value, re.IGNORECASE)`.
Because the runs between separators contain no separator themselves, the
regex matches exactly when: the leading run is a nonempty alphanumeric run,
there is at least one separator group, every group before the last is a
nonempty alphanumeric run, and the last group is a `.` followed by at least
two letters.  Python's `$` also matches just before one trailing newline. -/
def is_valid_domain (s : Str) : Bool :=
  let t := if s.getLast? = some '\n' then s.dropLast else s
  let (first, groups) := domainRuns t
  first ≠ [] && first.all isAlnum &&
  groups ≠ [] &&
  (groups.dropLast.all fun g => g.2 ≠ [] && g.2.all isAlnum) &&
  (match groups.getLast? with
   | some (sep, tld) => sep = '.' && 2 ≤ tld.length && tld.all Char.isAlpha
   | none => false)

/-- A character allowed after the first character of a URL scheme. -/
def validSchemeChar (c : Char) : Bool :=
  c.isAlpha || c.isDigit || c = '+' || c = '-' || c = '.'

/-- `utils.is_url`: `urlparse(value)` must yield a truthy `scheme` and
`netloc`.  `urlparse` removes tab/CR/LF characters anywhere in the input,
recognises a scheme only when the text before the first `:` is nonempty,
starts with a letter and uses scheme characters, takes the netloc (up to
`/`, `?` or `#`) only after a `//`, and raises `ValueError` (caught by
`is_url`, yielding `False`) on unbalanced IPv6 brackets. -/
def is_url (s : Str) : Bool :=
  let u := s.filter (fun c => ¬ (c = '\t' ∨ c = '\r' ∨ c = '\n'))
  match splitFirst ':' u with
  | none => false
  | some (sch, rest) =>
    (match sch with
     | c :: cs => c.isAlpha && cs.all validSchemeChar
     | [] => false) &&
    ['/', '/'].isPrefixOf rest &&
    (let netloc := (rest.drop 2).takeWhile (fun c => ¬ (c = '/' ∨ c = '?' ∨ c = '#'))
     netloc ≠ [] && (netloc.contains '[' = netloc.contains ']'))

/-! ### sign.py -/

/-- The `SignOpts` parameter mapping of `sign`: each key is either absent
(`none`) or present with an arbitrary Python value, as the runtime dict can
hold any value regardless of the `TypedDict` annotations. -/
structure SignOpts where
  domain : Option PVal := none
  uri : Option PVal := none
  chain_id : Option PVal := none
  expiration_time : Option PVal := none
  expires_in : Option PVal := none
  not_before : Option PVal := none
  nonce : Option PVal := none
  request_id : Option PVal := none
  statement : Option PVal := none
deriving DecidableEq

/-- The `ValueError`s raised by `validate_params`, one per message. -/
inductive ValErr where
  | lineFeed
  | domainFormat
  | uriFormat
  | chainIdType
  | expirationType
  | notBeforeType
deriving DecidableEq

/-- Whether a present parameter value is a string containing a line feed
(the `isinstance(value, str) and '\n' in value` test of the loop in
`validate_params`). -/
def pvalHasLF : Option PVal → Bool
  | some (.pstr s) => s.contains '\n'
  | _ => false

/-- The values of `params.items()` for the line-feed loop. -/
def optsFields (p : SignOpts) : List (Option PVal) :=
  [p.domain, p.uri, p.chain_id, p.expiration_time, p.expires_in,
   p.not_before, p.nonce, p.request_id, p.statement]

/-- The `'domain' in params` check of `validate_params`. -/
def checkDomain : Option PVal → Except ValErr Unit
  | none => .ok ()
  | some (.pstr s) => if is_valid_domain s then .ok () else .error .domainFormat
  | some _ => .error .domainFormat

/-- The `'uri' in params` check of `validate_params`. -/
def checkUri : Option PVal → Except ValErr Unit
  | none => .ok ()
  | some (.pstr s) => if is_url s then .ok () else .error .uriFormat
  | some _ => .error .uriFormat

/-- The `'chain_id' in params` check: `isinstance(chain_id, (int, float))`;
`bool` passes because it subclasses `int`. -/
def checkChainId : Option PVal → Except ValErr Unit
  | none => .ok ()
  | some (.pint _) => .ok ()
  | some (.pfloat _) => .ok ()
  | some (.pbool _) => .ok ()
  | some _ => .error .chainIdType

/-- The `isinstance(..., datetime)` checks for `expiration_time` and
`not_before`. -/
def checkDatetime (e : ValErr) : Option PVal → Except ValErr Unit
  | none => .ok ()
  | some (.pdt _) => .ok ()
  | some _ => .error e

/-- `sign.validate_params`: the line-feed loop over all present values,
then the per-field structural checks, in source order. -/
def validate_params (p : SignOpts) : Except ValErr Unit :=
  if (optsFields p).any pvalHasLF then .error .lineFeed
  else do
    checkDomain p.domain
    checkUri p.uri
    checkChainId p.chain_id
    checkDatetime .expirationType p.expiration_time
    checkDatetime .notBeforeType p.not_before

/-- The `SignBody` produced by `process_params`, with the types of the
source's `TypedDict`: string claims, integer `chain_id`/`nonce`, timestamp
`issued_at`/`expiration_time`/`not_before`. -/
structure SignBody where
  web3_token_version : Option Str := none
  issued_at : Int := 0
  expiration_time : Int := 0
  not_before : Option Int := none
  chain_id : Option Int := none
  uri : Option Str := none
  nonce : Option Int := none
  request_id : Option Str := none
  domain : Option Str := none
  statement : Option Str := none
deriving DecidableEq

/-- Python `str(value)` for the values a claim field can hold.  (Floats
and datetimes are shown through their integral model; no claim inspects
those renderings.) -/
def pyToStr (v : PVal) : Str :=
  match v with
  | .pstr s => s
  | .pint n => intToStr n
  | .pfloat t => intToStr t ++ ['.', '0']
  | .pbool b => if b then "True".data else "False".data
  | .pdt t => intToStr t
  | .pnone => "None".data

/-- Python `int(value)` as used on `chain_id`: ints, bools and floats
convert (floats truncate); numeric strings parse after stripping
whitespace; everything else raises. -/
def pyInt (v : PVal) : Except Unit Int :=
  match v with
  | .pint n => .ok n
  | .pbool b => .ok (if b then 1 else 0)
  | .pfloat t => .ok t
  | .pstr s =>
    let t := pyStrip s
    let (sgn, digits) : Int × Str :=
      match t with
      | '-' :: d => (-1, d)
      | '+' :: d => (1, d)
      | d => (1, d)
    if digits ≠ [] ∧ digits.all Char.isDigit then .ok (sgn * strToNat digits)
    else .error ()
  | _ => .error ()

/-- The errors `process_params` can raise (through `timespan` or
`int(...)`). -/
inductive ArgErr where
  | badExpiresIn
  | badChainId
  | badValue
deriving DecidableEq

/-- The `timespan(params.get('expires_in', '1d'))`/`timespan('1d')` branch
of the `expiration_time` computation. -/
def expirationFromSpan (now : Int) (ei : Option PVal) : Except ArgErr Int :=
  match timespan now (ei.getD (.pstr "1d".data)) with
  | .error _ => .error .badExpiresIn
  | .ok t => .ok t

/-- `sign.process_params`: build the `SignBody`.  The current time and the
nonce drawn from the random source are passed explicitly (`now`, `rand`).
`params.get('expiration_time') or ...` falls through to the `timespan`
branch when the value is absent or falsy (`None`); a truthy non-datetime
value there is unreachable after validation and is reported as an error.
Non-string values in the string-typed claim fields are copied through
their `str(...)` rendering, which is how the f-string in `build_message`
would display them. -/
def process_params (now rand : Int) (p : SignOpts) : Except ArgErr SignBody := do
  let expiration ←
    match p.expiration_time with
    | some v =>
      if pyTruthy v then
        match v with
        | .pdt t => pure t
        | _ => Except.error .badValue
      else expirationFromSpan now p.expires_in
    | none => expirationFromSpan now p.expires_in
  let chain : Option Int ←
    match p.chain_id with
    | none => pure none
    | some v =>
      match pyInt v with
      | .error _ => Except.error .badChainId
      | .ok n => pure (some n)
  pure {
    web3_token_version := some ['2']
    issued_at := now
    expiration_time := expiration
    not_before := match p.not_before with
      | some (.pdt t) => some t
      | some _ => none
      | none => none
    chain_id := chain
    uri := p.uri.map pyToStr
    nonce := if (p.nonce.map pyTruthy).getD false then some rand else none
    request_id := p.request_id.map pyToStr
    domain := p.domain.map pyToStr
    statement := p.statement.map pyToStr
  }

/-- The fixed suffix of the domain banner line. -/
def bannerSuffix : Str := " wants you to sign in with your Ethereum account.".data

/-- Python truthiness of an optional string (`params.get(key)`). -/
def truthyStrOpt : Option Str → Bool
  | some s => s ≠ []
  | none => false

/-- The `param_labels` dict of `build_message`: label/value pairs in the
source's insertion order.  `Issued At` and `Expiration Time` are always
rendered (`params['issued_at'].isoformat()`); `Not Before` is rendered only
when present (and datetimes are always truthy). -/
def headerPairs (iso : Int → Str) (p : SignBody) : List (Str × Option Str) :=
  [("URI".data, p.uri),
   ("Web3 Token Version".data, p.web3_token_version),
   ("Chain ID".data, p.chain_id.map intToStr),
   ("Nonce".data, p.nonce.map intToStr),
   ("Issued At".data, some (iso p.issued_at)),
   ("Expiration Time".data, some (iso p.expiration_time)),
   ("Not Before".data, p.not_before.map iso),
   ("Request ID".data, p.request_id)]

/-- The `Label: value` lines appended by the loop of `build_message`:
one line per pair whose value `is not None`. -/
def headerLines (iso : Int → Str) (p : SignBody) : List Str :=
  (headerPairs iso p).filterMap (fun lv => lv.2.map (fun v => lv.1 ++ (':' :: ' ' :: v)))

/-- The `message` list of `build_message` just before `'\n'.join`: the
optional domain banner followed by a blank line, the optional statement
followed by a blank line, then the header lines. -/
def messageLines (iso : Int → Str) (p : SignBody) : List Str :=
  (if truthyStrOpt p.domain then [(p.domain.getD []) ++ bannerSuffix, []] else []) ++
  (if truthyStrOpt p.statement then [p.statement.getD [], []] else []) ++
  headerLines iso p

/-- `sign.build_message`: `'\n'.join(message)`. -/
def build_message (iso : Int → Str) (p : SignBody) : Str :=
  List.intercalate ['\n'] (messageLines iso p)

/-- The signed token: the source wraps `{'signature': ..., 'body': msg}`
in JSON and base64; that envelope is an opaque external codec, so the
token is modelled as the pair it encodes. -/
structure Token where
  body : Str
  signature : Str
deriving DecidableEq

/-- The errors `sign` can raise. -/
inductive SignErr where
  | validation (e : ValErr)
  | argument (e : ArgErr)
deriving DecidableEq

/-- `sign`'s handling of a plain-string `opts`: `{'expires_in': opts}`. -/
def optsOfString (s : Str) : SignOpts := { expires_in := some (.pstr s) }

/-- `sign.sign`: validate, process, build the message, call the signer,
wrap.  The external signer and clock/random sources are explicit
parameters; the second component of the result records whether the signer
capability was invoked. -/
def sign (signer : Str → Str) (now rand : Int) (iso : Int → Str)
    (opts : Sum Str SignOpts) : Except SignErr Token × Bool :=
  let params := match opts with
    | .inl s => optsOfString s
    | .inr p => p
  match validate_params params with
  | .error e => (.error (.validation e), false)
  | .ok _ =>
    match process_params now rand params with
    | .error e => (.error (.argument e), false)
    | .ok body =>
      let msg := build_message iso body
      let signature := signer msg
      (.ok { body := msg, signature := signature }, true)

/-! ### verify.py — section/header parsing -/

/-- An array of message sections (`MessageSections`). -/
abbrev MessageSections := List (List Str)

/-- One iteration of the loop in `split_sections`: an empty line appends a
new empty section, any other line is appended to the last section. -/
def sectionStep (sections : MessageSections) (line : Str) : MessageSections :=
  if line = [] then sections ++ [[]]
  else sections.dropLast ++ [(sections.getLast?.getD []) ++ [line]]

/-- `verify.split_sections` / `message_parser.split_sections`: start from
`[[]]` and fold the loop body over the lines. -/
def split_sections (lines : List Str) : MessageSections :=
  lines.foldl sectionStep [[]]

/-- The uncaught Python exceptions that the body parser can raise:
`IndexError` from indexing an empty section, and the
`ValueError('Decrypted body is damaged')` of `parse_body`. -/
inductive ParseErr where
  | indexError
  | damaged
deriving DecidableEq

/-- `verify.extract_token_domain`: look at the last line of the first
section; `sections[0]` raises `IndexError` on an empty section list
(`split_sections` never produces one, but the function is total on its
declared type). -/
def extract_token_domain (sections : MessageSections) : Except ParseErr (Option Str) :=
  match sections with
  | [] => .error .indexError
  | first :: _ =>
    if first = [] then .ok none
    else
      let last_line := first.getLast?.getD []
      if bannerSuffix.isSuffixOf last_line then
        .ok (some (pyStrip (replaceList bannerSuffix [] last_line)))
      else .ok none

/-- Python falsiness of an optional string, the `not extract_token_domain(...)`
test (`None` and `''` are both falsy). -/
def pyFalsyOptStr : Option Str → Bool
  | none => true
  | some s => s = []

/-- `verify.extract_token_statement`: with exactly two sections and a falsy
extracted domain the statement is `sections[0][0]`; with exactly three it is
`sections[1][0]`; otherwise `None`.  Indexing an empty section raises
`IndexError`. -/
def extract_token_statement (sections : MessageSections) : Except ParseErr (Option Str) :=
  if sections.length = 2 then
    match extract_token_domain sections with
    | .error e => .error e
    | .ok d =>
      if pyFalsyOptStr d then
        match (sections.head?.getD []).head? with
        | some x => .ok (some x)
        | none => .error .indexError
      else .ok none
  else if sections.length = 3 then
    match ((sections.get? 1).getD []).head? with
    | some x => .ok (some x)
    | none => .error .indexError
  else .ok none

/-- A Python dict with string keys and values, modelled as an insertion
ordered association list with at most one entry per key. -/
abbrev Dict := List (Str × Str)

/-- `d[k]` lookup (`None` when absent). -/
def dictGet? (d : Dict) (k : Str) : Option Str :=
  (d.find? (fun p => p.1 == k)).map (fun p => p.2)

/-- `k in d`. -/
def dictHas (d : Dict) (k : Str) : Bool :=
  (d.find? (fun p => p.1 == k)).isSome

/-- `d[k] = v`: overwrite in place when the key exists, else append. -/
def dictInsert (d : Dict) (k v : Str) : Dict :=
  if dictHas d k then d.map (fun p => if p.1 == k then (k, v) else p)
  else d ++ [(k, v)]

/-- `del d[k]`. -/
def dictDel (d : Dict) (k : Str) : Dict :=
  d.filter (fun p => ¬ p.1 == k)

/-- `verify.parse_as_headers` / `header_parser.parse_headers`: for each
line containing a colon, split on the first colon and strip both sides. -/
def parse_as_headers (text : Str) : Dict :=
  (splitOnChar '\n' text).foldl (fun headers line =>
    match splitFirst ':' line with
    | some kv => dictInsert headers (pyStrip kv.1) (pyStrip kv.2)
    | none => headers) []

/-- The space-to-hyphen key rewrite loop of `parse_body` (and
`header_parser.normalize_header_keys`): for each key of the snapshot,
if hyphenating changes it, write the value under the hyphenated key and
delete the original key. -/
def hyphenateKeys (d : Dict) : Dict :=
  (d.map Prod.fst).foldl (fun h k =>
    let hk := replaceList [' '] ['-'] k
    if hk ≠ k then
      match dictGet? h k with
      | some v => dictDel (dictInsert h hk v) k
      | none => h
    else h) d

/-- The keys `parse_body` requires after hyphenation (note: lower-case,
compared against the dict's keys case-sensitively). -/
def requiredFields : List Str :=
  ["issued-at".data, "expiration-time".data, "web3-token-version".data]

/-- The hyphen-to-underscore dict comprehension of `parse_body`. -/
def underscoreKeys (d : Dict) : Dict :=
  d.foldl (fun h p => dictInsert h (replaceList ['-'] ['_'] p.1) p.2) []

/-- `verify.parse_body`: split into sections, parse the last section as
headers, hyphenate the keys, extract domain and statement (which can raise
`IndexError` before the required-field check), check the required fields
(raising `ValueError('Decrypted body is damaged')`), then build the result
mapping, adding truthy domain and statement. -/
def parse_body (lines : List Str) : Except ParseErr Dict := do
  let body_sections := split_sections lines
  let main_body_section := List.intercalate ['\n'] (body_sections.getLast?.getD [])
  let parsed_headers := hyphenateKeys (parse_as_headers main_body_section)
  let token_domain ← extract_token_domain body_sections
  let token_statement ← extract_token_statement body_sections
  if ¬ requiredFields.all (fun f => dictHas parsed_headers f) then
    Except.error .damaged
  else
    let result := underscoreKeys parsed_headers
    let result := match token_domain with
      | some s => if s ≠ [] then dictInsert result "domain".data s else result
      | none => result
    let result := match token_statement with
      | some s => if s ≠ [] then dictInsert result "statement".data s else result
      | none => result
    pure result

/-! ### verify.py — temporal and domain checks -/

/-- The semantic verification failures of `verify`. -/
inductive VerifyErr where
  | expired
  | notYetValid
  | domainMismatch
deriving DecidableEq

/-- The expiry and not-before comparisons of `verify` (lines after
`parse_body`), over already-parsed instants and an explicit current time:
`expiration_time < now` raises `Token expired`; a present `not_before`
strictly greater than `now` raises the not-yet-valid error. -/
def verify_temporal (expiration_time : Int) (not_before : Option Int) (now : Int) :
    Except VerifyErr Unit :=
  if expiration_time < now then .error .expired
  else
    match not_before with
    | some t => if t > now then .error .notYetValid else .ok ()
    | none => .ok ()

/-- The domain comparison of `verify`:
`if opts.get('domain') and opts['domain'] != parsed_body.get('domain')`.
`opts.get('domain')` is a truthiness test, so an empty-string option skips
the check. -/
def domain_check (optsDomain parsedDomain : Option Str) : Except VerifyErr Unit :=
  match optsDomain with
  | some d => if d ≠ [] ∧ parsedDomain ≠ some d then .error .domainMismatch else .ok ()
  | none => .ok ()

/-- The post-parse checks of `verify`, in source order: temporal checks,
then the domain check. -/
def verify_checks (expiration_time : Int) (not_before : Option Int)
    (optsDomain parsedDomain : Option Str) (now : Int) : Except VerifyErr Unit := do
  verify_temporal expiration_time not_before now
  domain_check optsDomain parsedDomain

/-! ### decrypt.py -/

/-- A separator character of the version pattern: `[\s-]`. -/
def isSepChar (c : Char) : Bool := isPySpace c ∨ c = '-'

/-- Strip a literal prefix, or fail. -/
def stripLit (pat s : Str) : Option Str :=
  if pat.isPrefixOf s then some (s.drop pat.length) else none

/-- Consume one or more separator characters (`[\s-]+`; the following
literal is never a separator, so the greedy match is the only one). -/
def seps1 (s : Str) : Option Str :=
  match s with
  | c :: cs => if isSepChar c then some (cs.dropWhile isSepChar) else none
  | [] => none

/-- Try to match `Web3[\s-]+Token[\s-]+Version: \d` at the start of `s`,
returning the digit's value (the `int(...)` of the matched text). -/
def matchVersionAt (s : Str) : Option Nat := do
  let s ← stripLit "Web3".data s
  let s ← seps1 s
  let s ← stripLit "Token".data s
  let s ← seps1 s
  let s ← stripLit "Version: ".data s
  match s with
  | c :: _ => if c.isDigit then some (c.toNat - 48) else none
  | [] => none

/-- `decrypt.get_version`: `re.search` scans for the leftmost match of the
version pattern; `None` (a raised `Token malformed (missing version)`) when
absent. -/
def get_version : Str → Option Nat
  | [] => none
  | c :: cs =>
    match matchVersionAt (c :: cs) with
    | some v => some v
    | none => get_version cs

/-- The failures of `decrypt` past the transport envelope: empty body or
signature, a non-hex signature (`bytes.fromhex` raising), a failing
recovery call, and the missing version tag. -/
inductive DecErr where
  | emptyMessage
  | emptySignature
  | hexError
  | recoveryFailed
  | missingVersion
deriving DecidableEq

/-- The `DecrypterResult` record. -/
structure DecResult where
  version : Nat
  address : Str
  body : Str
  signature : Str
deriving DecidableEq

/-- Strip an optional `0x` prefix from the signature. -/
def strip0x (sig : Str) : Str :=
  if ['0', 'x'].isPrefixOf sig then sig.drop 2 else sig

/-- A hex digit as accepted by `bytes.fromhex`. -/
def isHexDigitB (c : Char) : Bool :=
  c.isDigit ∨ ('a' ≤ c ∧ c ≤ 'f') ∨ ('A' ≤ c ∧ c ≤ 'F')

/-- Whether `bytes.fromhex` accepts the string: an even number of hex
digits (its tolerance for spaces between bytes is not modelled). -/
def isHexStr (s : Str) : Bool := s.length % 2 = 0 && s.all isHexDigitB

/-- `decrypt.decrypt` after the opaque base64/JSON envelope has produced
`body` and `signature`: reject empty fields, hex-decode the signature,
invoke the external recovery capability, then extract the version, and
lower-case the recovered address.  The recovery call happens before
`get_version` is consulted, exactly as in the source. -/
def decrypt (recover : Str → Str → Option Str) (body signature : Str) :
    Except DecErr DecResult :=
  if body = [] then .error .emptyMessage
  else if signature = [] then .error .emptySignature
  else
    let sigHex := strip0x signature
    if ¬ isHexStr sigHex then .error .hexError
    else
      match recover body sigHex with
      | none => .error .recoveryFailed
      | some address =>
        match get_version body with
        | none => .error .missingVersion
        | some version =>
          .ok { version := version, address := pyLower address,
                body := body, signature := signature }

/-! ### Claims -/

/-- A concrete parameter mapping accepted by `validate_params`:
`{'domain': 'iq.wiki', 'statement': 'Test', 'expiration_time': <datetime>}`. -/
def optsC1 : SignOpts :=
  { domain := some (.pstr "iq.wiki".data),
    statement := some (.pstr "Test".data),
    expiration_time := some (.pdt 2) }

/-- The `SignBody` that `process_params` produces from `optsC1` at time 1. -/
def bodyC1 : SignBody :=
  { web3_token_version := some ['2'], issued_at := 1, expiration_time := 2,
    domain := some "iq.wiki".data, statement := some "Test".data }

/-- C1: the round-trip fails on every message the builder emits.  For the
valid claims `optsC1` (accepted by `validate_params`), `parse_body` applied
to the lines of the built message raises
`ValueError('Decrypted body is damaged')` instead of recovering the set
fields: the required-field check compares the lower-case keys
`issued-at`, `expiration-time`, `web3-token-version` case-sensitively
against the hyphenated-but-capitalised parsed keys (`Issued-At`, ...). -/
theorem C1_roundtrip_failure :
    validate_params optsC1 = .ok () ∧
    process_params 1 0 optsC1 = .ok bodyC1 ∧
    parse_body (splitOnChar '\n' (build_message intToStr bodyC1)) =
      .error .damaged := by decide

/-- C4: the duration resolver maps `1d` and `24h` to 86,400,000 ms and
`1ms` to 1 ms, and fails to parse `1.5d`, `-1d`, `1y` and `d`; but the
unknown two-letter unit `dd` (any two characters of `[dhms]` pass the
regex) is accepted and multiplied by the `multipliers.get(unit, 0)`
default, producing the millisecond count 0 instead of a parse failure. -/
theorem C4_duration_resolver :
    ms "1d".data = some 86400000 ∧
    ms "24h".data = some 86400000 ∧
    ms "1ms".data = some 1 ∧
    ms "1.5d".data = none ∧
    ms "-1d".data = none ∧
    ms "1y".data = none ∧
    ms "d".data = none ∧
    ms "1dd".data = some 0 ∧
    timespan 100 (.pstr "1dd".data) = .ok 100 := by decide

/-- C10: `parse_body` is not total on decodable bodies.  A body whose
first line is blank followed by the header block (two sections, the first
empty), and a body with an empty second section among three, both drive
`extract_token_statement` to index an empty section: the run ends in an
uncaught `IndexError`, not the typed `ValueError('Decrypted body is
damaged')`. -/
theorem C10_parse_body_index_error :
    parse_body [[], "Web3 Token Version: 2".data, "Issued At: 1".data,
        "Expiration Time: 2".data] = .error .indexError ∧
    parse_body ["Hi".data, [], [], "Issued At: 1".data] = .error .indexError := by
  decide

/-- C3 counterexample: the caller supplies `opts.domain = ''`, which
differs from the parsed domain `iq.wiki`, yet the domain check passes,
because `opts.get('domain')` is a truthiness test and the empty string is
falsy.  The claim as stated requires `DomainMismatchError` here. -/
theorem C3_domain_counterexample :
    domain_check (some []) (some "iq.wiki".data) = .ok () ∧
    ([] : Str) ≠ "iq.wiki".data := by decide

/-- C3 (amended): `DomainMismatchError` is raised exactly when the caller
supplies a non-empty `opts.domain` that differs from the parsed domain
(including a missing domain claim); the check passes when `opts.domain` is
absent, empty, or equal to the parsed domain. -/
theorem C3_domain_amended (od pd : Option Str) :
    (domain_check od pd = .error .domainMismatch ↔
      ∃ d, od = some d ∧ d ≠ [] ∧ pd ≠ some d) ∧
    (domain_check od pd = .ok () ↔
      (od = none ∨ ∃ d, od = some d ∧ (d = [] ∨ pd = some d))) := by
  unfold domain_check
  cases od with
  | none => simp
  | some d =>
    by_cases h1 : d = []
    · subst h1
      simp
    · by_cases h2 : pd = some d
      · simp [h1, h2]
      · simp [h1, h2]

/-- C3 witness: a supplied non-empty domain differing from an absent
parsed domain raises the mismatch error. -/
theorem C3_domain_amended_witness :
    domain_check (some ['a']) none = .error .domainMismatch :=
  (C3_domain_amended (some ['a']) none).1.mpr ⟨['a'], rfl, by decide, by decide⟩

/-- The chained `verify_checks` written as nested conditionals: the expiry
check fires first, then the not-before check, then the domain check. -/
lemma verify_checks_eq_ite (exp : Int) (nb : Option Int) (od pd : Option Str) (now : Int) :
    verify_checks exp nb od pd now =
      if exp < now then .error .expired
      else if (match nb with | some t => decide (t > now) | none => false) = true then
        .error .notYetValid
      else domain_check od pd := by
  unfold verify_checks verify_temporal
  by_cases he : exp < now
  · simp [he, Bind.bind, Except.bind]
  · cases nb with
    | none => simp [he, Bind.bind, Except.bind]
    | some t => by_cases ht : t > now <;> simp [he, ht, Bind.bind, Except.bind]

/-- The domain check never produces a temporal error. -/
lemma domain_check_cases (od pd : Option Str) :
    domain_check od pd = .ok () ∨ domain_check od pd = .error .domainMismatch := by
  unfold domain_check
  cases od with
  | none => exact Or.inl rfl
  | some d =>
    by_cases h : d ≠ [] ∧ pd ≠ some d
    · exact Or.inr (by simp [h])
    · exact Or.inl (by simp [h])

/-- C2: the post-parse checks of `verify` raise the expiry error exactly
when the parsed expiration time is strictly earlier than the current time,
raise the not-yet-valid error exactly when a `not_before` instant is
present and strictly later than the current time (and the token is not
expired, since the expiry check runs first), and a token whose expiration
equals the current instant passes the expiry check. -/
theorem C2_temporal_checks (exp : Int) (nb : Option Int) (od pd : Option Str) (now : Int) :
    (verify_checks exp nb od pd now = .error .expired ↔ exp < now) ∧
    (verify_checks exp nb od pd now = .error .notYetValid ↔
      (¬ exp < now ∧ ∃ t, nb = some t ∧ now < t)) ∧
    (exp = now → verify_checks exp nb od pd now ≠ .error .expired) := by
  have hd := domain_check_cases od pd
  rw [verify_checks_eq_ite]
  by_cases he : exp < now
  · refine ⟨by simp [he], by simp [he], fun h => absurd he (by omega)⟩
  · cases nb with
    | none =>
      rcases hd with hd | hd <;>
        refine ⟨by simp [he, hd], by simp [he, hd], fun _ => by simp [he, hd]⟩
    | some t =>
      by_cases ht : t > now
      · refine ⟨by simp [he, ht], by simp [he, ht], fun _ => by simp [he, ht]⟩
      · rcases hd with hd | hd <;>
          refine ⟨by simp [he, ht, hd], by simp [he, ht, hd], fun _ => by simp [he, ht, hd]⟩

/-- C2 witness: an expiration one unit before the current time raises the
expiry error; an equal expiration does not. -/
theorem C2_temporal_checks_witness :
    verify_checks 0 none none none 1 = .error .expired ∧
    verify_checks 1 none none none 1 ≠ .error .expired :=
  ⟨(C2_temporal_checks 0 none none none 1).1.mpr (by decide),
   (C2_temporal_checks 1 none none none 1).2.2 rfl⟩

/-- C8 counterexample: the claim asserts that a body lacking the version
pattern fails with the missing-version error independently of the recovery
capability's result; but `decrypt` invokes recovery first, so with a
failing recovery capability the same body and signature surface the
recovery failure instead. -/
theorem C8_version_order_counterexample :
    get_version "hello".data = none ∧
    decrypt (fun _ _ => none) "hello".data "ab".data = .error .recoveryFailed ∧
    decrypt (fun _ _ => none) "hello".data "ab".data ≠ .error .missingVersion := by
  decide

/-- C8 (amended): `decrypt` invokes the external address-recovery
capability before extracting the version; when the decoded body lacks the
`Web3[-\s]+Token[-\s]+Version: <digit>` pattern, it fails with the
missing-version `MalformedTokenError` provided the recovery call returns
an address — whatever address that is. -/
theorem C8_version_order_amended (recover : Str → Str → Option Str)
    (body sig addr : Str) (hb : body ≠ []) (hs : sig ≠ [])
    (hhex : isHexStr (strip0x sig) = true)
    (hrec : recover body (strip0x sig) = some addr)
    (hv : get_version body = none) :
    decrypt recover body sig = .error .missingVersion := by
  unfold decrypt
  simp [hb, hs, hhex, hrec, hv]

/-- C8 witness: with a recovery capability that succeeds, a version-less
body fails with the missing-version error. -/
theorem C8_version_order_witness :
    decrypt (fun _ _ => some "A".data) "hello".data "ab".data =
      .error .missingVersion :=
  C8_version_order_amended (fun _ _ => some "A".data) "hello".data "ab".data
    "A".data (by decide) (by decide) (by decide) rfl (by decide)

/-- Front-recursive reformulation of `split_sections`: an empty line
contributes a fresh leading group, any other line joins the first group of
the remainder. -/
def splitSectionsRec : List Str → MessageSections
  | [] => [[]]
  | l :: ls =>
    if l = [] then [] :: splitSectionsRec ls
    else
      match splitSectionsRec ls with
      | [] => [[l]]
      | g :: gs => (l :: g) :: gs

lemma splitSectionsRec_ne_nil (ls : List Str) : splitSectionsRec ls ≠ [] := by
  cases ls with
  | nil => simp [splitSectionsRec]
  | cons l ls =>
    unfold splitSectionsRec
    by_cases h : l = []
    · simp [h]
    · simp only [h, if_false]
      cases hr : splitSectionsRec ls <;> simp

/-- Prepend the pending content of the current last group to the first
group of the remaining sections. -/
def mergeHead (cur : List Str) : MessageSections → MessageSections
  | [] => [cur]
  | g :: gs => (cur ++ g) :: gs

/-- The loop of `split_sections` (a left fold of `sectionStep`), started
on a section list ending in the group `cur`, agrees with the
front-recursive reformulation. -/
lemma foldl_sectionStep (ls : List Str) :
    ∀ (pre : MessageSections) (cur : List Str),
      List.foldl sectionStep (pre ++ [cur]) ls =
        pre ++ mergeHead cur (splitSectionsRec ls) := by
  induction ls with
  | nil =>
    intro pre cur
    simp [splitSectionsRec, mergeHead]
  | cons l ls ih =>
    intro pre cur
    by_cases h : l = []
    · subst h
      have hstep : sectionStep (pre ++ [cur]) [] = (pre ++ [cur]) ++ [[]] := by
        simp [sectionStep]
      rw [List.foldl_cons, hstep, ih (pre ++ [cur]) []]
      cases hr : splitSectionsRec ls with
      | nil => exact absurd hr (splitSectionsRec_ne_nil ls)
      | cons g gs =>
        simp [splitSectionsRec, hr, mergeHead]
    · have hstep : sectionStep (pre ++ [cur]) l = pre ++ [cur ++ [l]] := by
        simp [sectionStep, h]
      rw [List.foldl_cons, hstep, ih pre (cur ++ [l])]
      cases hr : splitSectionsRec ls with
      | nil => exact absurd hr (splitSectionsRec_ne_nil ls)
      | cons g gs =>
        simp [splitSectionsRec, hr, mergeHead, h]

/-- `split_sections` computes the front recursion. -/
lemma split_sections_eq_rec (lines : List Str) :
    split_sections lines = splitSectionsRec lines := by
  have h := foldl_sectionStep lines [] []
  simp only [List.nil_append] at h
  rw [split_sections, h]
  cases hr : splitSectionsRec lines with
  | nil => exact absurd hr (splitSectionsRec_ne_nil lines)
  | cons g gs => simp [mergeHead]

lemma splitSectionsRec_length (lines : List Str) :
    (splitSectionsRec lines).length = 1 + lines.count [] := by
  induction lines with
  | nil => simp [splitSectionsRec]
  | cons l ls ih =>
    by_cases h : l = []
    · subst h
      simp [splitSectionsRec, List.count_cons, ih]
      omega
    · simp only [splitSectionsRec, h, if_false]
      cases hr : splitSectionsRec ls with
      | nil => exact absurd hr (splitSectionsRec_ne_nil ls)
      | cons g gs =>
        rw [hr] at ih
        simp only [List.length_cons] at ih ⊢
        rw [List.count_cons]
        simp [h, ih]

lemma splitSectionsRec_join (lines : List Str) :
    (splitSectionsRec lines).join = lines.filter (fun l => l ≠ []) := by
  induction lines with
  | nil => simp [splitSectionsRec]
  | cons l ls ih =>
    by_cases h : l = []
    · subst h
      simp [splitSectionsRec, ih]
    · simp only [splitSectionsRec, h, if_false]
      cases hr : splitSectionsRec ls with
      | nil => exact absurd hr (splitSectionsRec_ne_nil ls)
      | cons g gs =>
        rw [hr] at ih
        simp only [List.join_cons] at ih ⊢
        simp only [ne_eq, decide_not] at ih ⊢
        simp [List.filter_cons, h, ih.symm]

lemma splitSectionsRec_all_ne (lines : List Str)
    (h : ∀ l ∈ lines, l ≠ []) : splitSectionsRec lines = [lines] := by
  induction lines with
  | nil => simp [splitSectionsRec]
  | cons l ls ih =>
    have hl : l ≠ [] := h l (by simp)
    have hrest : ∀ x ∈ ls, x ≠ [] := fun x hx => h x (by simp [hx])
    simp only [splitSectionsRec, hl, if_false]
    rw [ih hrest]

/-- C6: `split_sections` partitions its input: the number of groups is one
more than the number of empty lines (so at least one group always exists),
the groups concatenate to the non-empty lines in order (empty lines are
dropped, each starting a new group), a list with no empty lines yields the
single group holding all lines, and the lines of `"a\n\nb\n\nc"` yield
`[["a"], ["b"], ["c"]]`. -/
theorem C6_split_sections (lines : List Str) :
    (split_sections lines).length = 1 + lines.count [] ∧
    (split_sections lines).join = lines.filter (fun l => l ≠ []) ∧
    0 < (split_sections lines).length ∧
    ((∀ l ∈ lines, l ≠ []) → split_sections lines = [lines]) ∧
    split_sections (splitOnChar '\n' "a\n\nb\n\nc".data) =
      [["a".data], ["b".data], ["c".data]] := by
  rw [split_sections_eq_rec]
  refine ⟨splitSectionsRec_length lines, splitSectionsRec_join lines, ?_, ?_, by decide⟩
  · rw [splitSectionsRec_length]
    omega
  · exact splitSectionsRec_all_ne lines

/-- C6 witness: a list with no empty lines yields exactly one group. -/
theorem C6_split_sections_witness :
    split_sections [['x'], ['y']] = [[['x'], ['y']]] :=
  (C6_split_sections [['x'], ['y']]).2.2.2.1 (by decide)

lemma splitOnChar_ne_nil (c : Char) (s : Str) : splitOnChar c s ≠ [] := by
  cases s with
  | nil => simp [splitOnChar]
  | cons x xs =>
    unfold splitOnChar
    cases hr : splitOnChar c xs with
    | nil => simp
    | cons g gs => by_cases h : x = c <;> simp [h]

lemma splitOnChar_of_not_mem (c : Char) (l : Str) (h : c ∉ l) :
    splitOnChar c l = [l] := by
  induction l with
  | nil => rfl
  | cons x xs ih =>
    have hx : ¬ x = c := fun hc => h (hc ▸ List.mem_cons_self x xs)
    have hxs : c ∉ xs := fun hc => h (List.mem_cons_of_mem x hc)
    unfold splitOnChar
    rw [ih hxs]
    simp [hx]

lemma splitOnChar_cons (c x : Char) (xs : Str) :
    splitOnChar c (x :: xs) =
      match splitOnChar c xs with
      | [] => [[x]]
      | g :: gs => if x = c then [] :: g :: gs else (x :: g) :: gs := rfl

lemma splitOnChar_append_sep (c : Char) (l t : Str) (h : c ∉ l) :
    splitOnChar c (l ++ c :: t) = l :: splitOnChar c t := by
  induction l with
  | nil =>
    simp only [List.nil_append]
    rw [splitOnChar_cons]
    cases hr : splitOnChar c t with
    | nil => exact absurd hr (splitOnChar_ne_nil c t)
    | cons g gs => simp
  | cons x xs ih =>
    have hx : ¬ x = c := fun hc => h (hc ▸ List.mem_cons_self x xs)
    have hxs : c ∉ xs := fun hc => h (List.mem_cons_of_mem x hc)
    simp only [List.cons_append]
    rw [splitOnChar_cons, ih hxs]
    simp [hx]

lemma intercalate_singleton (s x : Str) : List.intercalate s [x] = x := by
  simp [List.intercalate, List.intersperse]

lemma intercalate_cons_cons (s x y : Str) (L : List Str) :
    List.intercalate s (x :: y :: L) = x ++ s ++ List.intercalate s (y :: L) := by
  simp [List.intercalate, List.intersperse]

/-- Splitting on `c` inverts joining with `c` when no chunk contains `c`. -/
lemma splitOnChar_intercalate (c : Char) (L : List Str) (hL : L ≠ [])
    (h : ∀ l ∈ L, c ∉ l) : splitOnChar c (List.intercalate [c] L) = L := by
  induction L with
  | nil => exact absurd rfl hL
  | cons x xs ih =>
    cases xs with
    | nil =>
      rw [intercalate_singleton]
      exact splitOnChar_of_not_mem c x (h x (by simp))
    | cons y ys =>
      rw [intercalate_cons_cons]
      have hx : c ∉ x := h x (by simp)
      have hrest : ∀ l ∈ y :: ys, c ∉ l := fun l hl => h l (by simp [hl])
      have := splitOnChar_append_sep c x (List.intercalate [c] (y :: ys)) hx
      simp only [List.append_assoc, List.singleton_append] at this ⊢
      rw [this, ih (by simp) hrest]

lemma headerLines_issued_at_mem (iso : Int → Str) (p : SignBody) :
    ("Issued At".data ++ (':' :: ' ' :: iso p.issued_at)) ∈ headerLines iso p := by
  unfold headerLines
  rw [List.mem_filterMap]
  exact ⟨("Issued At".data, some (iso p.issued_at)), by simp [headerPairs], rfl⟩

lemma headerLines_ne_nil (iso : Int → Str) (p : SignBody) :
    headerLines iso p ≠ [] :=
  List.ne_nil_of_mem (headerLines_issued_at_mem iso p)

lemma headerLines_mem_ne_nil (iso : Int → Str) (p : SignBody) :
    ∀ l ∈ headerLines iso p, l ≠ [] := by
  intro l hl
  unfold headerLines at hl
  rw [List.mem_filterMap] at hl
  obtain ⟨lv, _, hf⟩ := hl
  obtain ⟨v, _, rfl⟩ := Option.map_eq_some'.mp hf
  cases lv.1 <;> simp

/-- C5: `build_message` renders, in order, the optional domain banner then
a blank line, the optional statement then a blank line, then exactly one
`Label: value` line per present field in the order fixed by
`headerPairs` (URI, Web3 Token Version, Chain ID, Nonce, Issued At,
Expiration Time, Not Before, Request ID), joined by single line feeds:
splitting the output on `\n` recovers exactly `messageLines`, whose last
line is a header line, never a trailing blank.  As a pure function of the
claims and the issued-at serialisation it is deterministic by
construction. -/
theorem C5_build_message_format (iso : Int → Str) (p : SignBody)
    (h : ∀ l ∈ messageLines iso p, '\n' ∉ l) :
    splitOnChar '\n' (build_message iso p) = messageLines iso p ∧
    messageLines iso p ≠ [] ∧
    (∀ l, (messageLines iso p).getLast? = some l → l ≠ []) := by
  have hmem : ∀ l ∈ headerLines iso p, l ≠ [] := headerLines_mem_ne_nil iso p
  have hne : headerLines iso p ≠ [] := headerLines_ne_nil iso p
  have hlines : messageLines iso p ≠ [] := by
    unfold messageLines
    intro hnil
    rcases List.append_eq_nil.mp hnil with ⟨-, h2⟩
    exact hne h2
  refine ⟨?_, hlines, ?_⟩
  · exact splitOnChar_intercalate '\n' (messageLines iso p) hlines h
  · intro l hl
    have hlast : (messageLines iso p).getLast? = (headerLines iso p).getLast? := by
      unfold messageLines
      rw [List.getLast?_append_of_ne_nil _ hne]
    rw [hlast] at hl
    obtain ⟨hn, heq⟩ := List.mem_getLast?_eq_getLast hl
    exact heq ▸ hmem _ (List.getLast_mem hn)

/-- C5 witness: a claims value with only the mandatory fields set renders
as the bare header block. -/
theorem C5_build_message_format_witness :
    splitOnChar '\n' (build_message (fun _ => ['0'])
      { web3_token_version := some ['2'] }) =
      messageLines (fun _ => ['0']) { web3_token_version := some ['2'] } :=
  (C5_build_message_format (fun _ => ['0']) { web3_token_version := some ['2'] }
    (by decide)).1

/-- On a nonempty section list, domain extraction never raises. -/
lemma extract_token_domain_ok (first : List Str) (rest : MessageSections) :
    ∃ d, extract_token_domain (first :: rest) = .ok d := by
  unfold extract_token_domain
  by_cases h : first = []
  · exact ⟨none, by simp [h]⟩
  · by_cases h2 : bannerSuffix.isSuffixOf (first.getLast?.getD []) = true
    · refine ⟨some (pyStrip (replaceList bannerSuffix [] (first.getLast?.getD []))), ?_⟩
      simp [h, h2]
    · exact ⟨none, by simp [h, h2]⟩

/-- C7: `extract_token_statement` returns the first line of the first
group exactly when there are exactly two groups and the extracted domain
is falsy (`None` or empty); returns the first line of the second group
exactly when there are exactly three groups; and returns no statement for
any other group count.  ("Returns the first line" requires that line to
exist; an empty group instead raises `IndexError`, which claim C10
covers.) -/
theorem C7_extract_statement (sections : MessageSections) :
    (∀ v, extract_token_statement sections = .ok (some v) ↔
      ((sections.length = 2 ∧
        (∃ d, extract_token_domain sections = .ok d ∧ pyFalsyOptStr d = true) ∧
        (sections.head?.getD []).head? = some v) ∨
       (sections.length = 3 ∧ ((sections.get? 1).getD []).head? = some v))) ∧
    (sections.length ≠ 2 → sections.length ≠ 3 →
      extract_token_statement sections = .ok none) := by
  rcases sections with - | ⟨g1, - | ⟨g2, - | ⟨g3, t⟩⟩⟩
  · exact ⟨fun v => by simp [extract_token_statement], fun _ _ => by
      simp [extract_token_statement]⟩
  · exact ⟨fun v => by simp [extract_token_statement], fun _ _ => by
      simp [extract_token_statement]⟩
  · obtain ⟨d, hd⟩ := extract_token_domain_ok g1 [g2]
    refine ⟨fun v => ?_, fun h2 _ => absurd rfl h2⟩
    by_cases hf : pyFalsyOptStr d = true
    · cases hg1 : g1.head? with
      | some x => simp [extract_token_statement, hd, hf, hg1]
      | none => simp [extract_token_statement, hd, hf, hg1]
    · simp [extract_token_statement, hd, hf]
  · by_cases ht : t = []
    · subst ht
      refine ⟨fun v => ?_, fun _ h3 => absurd rfl h3⟩
      cases hg2 : g2.head? with
      | some x => simp [extract_token_statement, hg2]
      | none => simp [extract_token_statement, hg2]
    · have hlen : 0 < t.length := List.length_pos.mpr ht
      have h2 : (g1 :: g2 :: g3 :: t).length ≠ 2 := by
        simp only [List.length_cons]
        omega
      have h3 : (g1 :: g2 :: g3 :: t).length ≠ 3 := by
        simp only [List.length_cons]
        omega
      refine ⟨fun v => ?_, fun _ _ => ?_⟩
      · simp [extract_token_statement, h2, h3, ht]
      · simp [extract_token_statement, h2, h3, ht]

/-- C7 witness: two groups without a domain banner yield the first line of
the first group as the statement; three groups yield the first line of the
second group. -/
theorem C7_extract_statement_witness :
    extract_token_statement [["s".data], ["h".data]] = .ok (some "s".data) ∧
    extract_token_statement [["d".data], ["s".data], ["h".data]] =
      .ok (some "s".data) :=
  ⟨((C7_extract_statement [["s".data], ["h".data]]).1 "s".data).mpr
      (Or.inl ⟨by decide, ⟨none, by decide, by decide⟩, by decide⟩),
   ((C7_extract_statement [["d".data], ["s".data], ["h".data]]).1 "s".data).mpr
      (Or.inr ⟨by decide, by decide⟩)⟩

lemma except_seq_ok {ε : Type} {a : Except ε Unit} {f : Unit → Except ε Unit}
    (h : (a >>= f) = .ok ()) : a = .ok () ∧ f () = .ok () := by
  cases a with
  | error e => simp [Bind.bind, Except.bind] at h
  | ok u =>
    cases u
    exact ⟨rfl, by simpa [Bind.bind, Except.bind] using h⟩

/-- When `validate_params` succeeds, every one of its checks succeeded. -/
lemma validate_params_ok (p : SignOpts) (h : validate_params p = .ok ()) :
    (optsFields p).any pvalHasLF = false ∧ checkDomain p.domain = .ok () ∧
    checkUri p.uri = .ok () ∧ checkChainId p.chain_id = .ok () := by
  unfold validate_params at h
  by_cases ha : (optsFields p).any pvalHasLF
  · rw [if_pos ha] at h
    exact absurd h (by simp)
  · rw [if_neg ha] at h
    obtain ⟨h1, h⟩ := except_seq_ok h
    obtain ⟨h2, h⟩ := except_seq_ok h
    obtain ⟨h3, h⟩ := except_seq_ok h
    exact ⟨by simpa using ha, h1, h2, h3⟩

/-- The claim's precondition on the parameter mapping: some claim value
contains a line feed, or the domain is present but not a valid hostname,
or the uri is present but not a valid URL, or the chain id is present but
non-numeric (neither int nor float nor bool). -/
def invalidSignParams (p : SignOpts) : Prop :=
  (optsFields p).any pvalHasLF = true ∨
  (∃ v, p.domain = some v ∧ ∀ s, v = PVal.pstr s → is_valid_domain s = false) ∨
  (∃ v, p.uri = some v ∧ ∀ s, v = PVal.pstr s → is_url s = false) ∨
  (∃ v, p.chain_id = some v ∧ (∀ n, v ≠ PVal.pint n) ∧
    (∀ t, v ≠ PVal.pfloat t) ∧ (∀ b, v ≠ PVal.pbool b))

/-- C9: on a parameter mapping with an embedded line feed, an invalid
domain, an invalid uri, or a non-numeric chain id, `sign` raises a
validation error and the signer capability is never invoked (the flag in
the result records whether the signer was applied), for every signer,
clock, random draw and serialiser — so no message text reaches a signer. -/
theorem C9_validation_preempts_signer (p : SignOpts) (h : invalidSignParams p)
    (signer : Str → Str) (now rand : Int) (iso : Int → Str) :
    (∃ e, (sign signer now rand iso (.inr p)).1 = .error (.validation e)) ∧
    (sign signer now rand iso (.inr p)).2 = false := by
  have hv : ∃ e, validate_params p = .error e := by
    cases hval : validate_params p with
    | error e => exact ⟨e, rfl⟩
    | ok u =>
      cases u
      obtain ⟨hLF, hdom, huri, hchain⟩ := validate_params_ok p hval
      exfalso
      rcases h with h | h | h | h
      · rw [h] at hLF
        exact Bool.noConfusion hLF
      · obtain ⟨v, hp, hs⟩ := h
        rw [hp] at hdom
        cases v with
        | pstr s => simp [checkDomain, hs s rfl] at hdom
        | pint n => simp [checkDomain] at hdom
        | pfloat t => simp [checkDomain] at hdom
        | pbool b => simp [checkDomain] at hdom
        | pdt t => simp [checkDomain] at hdom
        | pnone => simp [checkDomain] at hdom
      · obtain ⟨v, hp, hs⟩ := h
        rw [hp] at huri
        cases v with
        | pstr s => simp [checkUri, hs s rfl] at huri
        | pint n => simp [checkUri] at huri
        | pfloat t => simp [checkUri] at huri
        | pbool b => simp [checkUri] at huri
        | pdt t => simp [checkUri] at huri
        | pnone => simp [checkUri] at huri
      · obtain ⟨v, hp, hn, hf, hb⟩ := h
        rw [hp] at hchain
        cases v with
        | pint n => exact hn n rfl
        | pfloat t => exact hf t rfl
        | pbool b => exact hb b rfl
        | pstr s => simp [checkChainId] at hchain
        | pdt t => simp [checkChainId] at hchain
        | pnone => simp [checkChainId] at hchain
  obtain ⟨e, he⟩ := hv
  refine ⟨⟨e, ?_⟩, ?_⟩ <;> simp [sign, he]

/-- A parameter mapping whose statement embeds a line feed. -/
def optsC9 : SignOpts := { statement := some (.pstr "a\nb".data) }

/-- C9 witness: with an embedded line feed, `sign` fails validation and
never applies the signer, whatever the signer does. -/
theorem C9_validation_preempts_signer_witness :
    (∃ e, (sign (fun s => s) 0 0 (fun _ => []) (.inr optsC9)).1 =
      .error (.validation e)) ∧
    (sign (fun s => s) 0 0 (fun _ => []) (.inr optsC9)).2 = false :=
  C9_validation_preempts_signer optsC9 (Or.inl (by decide)) (fun s => s) 0 0
    (fun _ => [])

end Web3Sign
